import Mathlib

/-!
Verification of the code-challenge repository.

Part 1 (`Engine`): the score-mutation and ranking-fanout engine described by
the design document (ActionTokenRegistry, ScoreLedger, LeaderboardIndex,
BroadcastHub, ScoreUpdateCoordinator).  The repository ships only the design
document for this engine, so every definition in the `Engine` namespace is
modelled from the spec, as noted on each definition.

Part 2 (`Problem5`): the product CRUD service of `src/problem5`, translated
from `product.service.ts`, `product.validator.ts` and the Prisma schema
(`sku String @unique`).
-/

namespace Spec2Proof

namespace Engine

/-- Modelled from the spec: redemption state of an action token
(`{unredeemed, redeemed}`). -/
inductive TokenState
  | unredeemed
  | redeemed
deriving DecidableEq, Repr

/-- Modelled from the spec: an ActionToken with owning participant id,
point value, creation time, expiry time and redemption state.  Opaque ids
and times are modelled as naturals. -/
structure ActionToken where
  participantId : Nat
  pointValue : Nat
  createdAt : Nat
  expiresAt : Nat
  state : TokenState
deriving DecidableEq, Repr

/-- Modelled from the spec: the token-level error kinds. -/
inductive TokenError
  | TokenNotFound
  | TokenExpired
  | TokenAlreadyUsed
deriving DecidableEq, Repr

/-- Modelled from the spec: the ActionTokenRegistry token table, keyed by
token id. -/
abbrev Registry := List (Nat × ActionToken)

def lookupToken (tid : Nat) (reg : Registry) : Option ActionToken :=
  (reg.find? (fun kv => kv.1 == tid)).map (·.2)

def markRedeemed (tid : Nat) (reg : Registry) : Registry :=
  reg.map (fun kv =>
    if kv.1 == tid then (kv.1, { kv.2 with state := TokenState.redeemed }) else kv)

/-- Modelled from the spec: `redeem(tokenId)` atomically checks existence,
unredeemed state and non-expiry, then marks the token redeemed and returns
the owning participant and point value; it fails with `TokenNotFound`,
`TokenAlreadyUsed` or `TokenExpired`.  The already-redeemed check precedes
the expiry check so that redemption of an already-redeemed token always
fails with `TokenAlreadyUsed`, as the spec requires.  The registry is
returned unchanged on every failure. -/
def redeem (now tid : Nat) (reg : Registry) :
    Except TokenError (Nat × Nat) × Registry :=
  match lookupToken tid reg with
  | none => (Except.error TokenError.TokenNotFound, reg)
  | some tok =>
    if tok.state = TokenState.redeemed then
      (Except.error TokenError.TokenAlreadyUsed, reg)
    else if tok.expiresAt < now then
      (Except.error TokenError.TokenExpired, reg)
    else
      (Except.ok (tok.participantId, tok.pointValue), markRedeemed tid reg)

/-- Modelled from the spec: one ScoreRecord per participant — total score
(non-negative integer), last-update time, monotonically increasing
version. -/
structure ScoreRecord where
  score : Nat
  lastUpdate : Nat
  version : Nat
deriving DecidableEq, Repr

/-- Modelled from the spec: the authoritative per-participant score store. -/
abbrev ScoreLedger := List (Nat × ScoreRecord)

/-- Modelled from the spec: the ledger error kind `ScoreOverflow`. -/
inductive LedgerError
  | ScoreOverflow
deriving DecidableEq, Repr

def ledgerGet (pid : Nat) (led : ScoreLedger) : Option ScoreRecord :=
  (led.find? (fun kv => kv.1 == pid)).map (·.2)

/-- A score record is created lazily on first update: absent participants
read as score 0, version 0. -/
def currentRecord (pid : Nat) (led : ScoreLedger) : ScoreRecord :=
  (ledgerGet pid led).getD ⟨0, 0, 0⟩

def ledgerSet (pid : Nat) (r : ScoreRecord) (led : ScoreLedger) : ScoreLedger :=
  if led.any (fun kv => kv.1 == pid) then
    led.map (fun kv => if kv.1 == pid then (pid, r) else kv)
  else
    led ++ [(pid, r)]

/-- Modelled from the spec: `applyDelta(participantId, delta)` atomically
reads the current score, adds the delta and writes back with incremented
version; overflow beyond the representable range (`maxScore`, the largest
representable score) fails with `ScoreOverflow` and leaves the ledger
unchanged — never silently wrapped or clamped. -/
def applyDelta (maxScore pid delta now : Nat) (led : ScoreLedger) :
    Except LedgerError (Nat × Nat) × ScoreLedger :=
  let cur := currentRecord pid led
  if maxScore < cur.score + delta then
    (Except.error LedgerError.ScoreOverflow, led)
  else
    (Except.ok (cur.score + delta, cur.version + 1),
     ledgerSet pid ⟨cur.score + delta, now, cur.version + 1⟩ led)

/-- Modelled from the spec: a LeaderboardEntry — participant id and score
held inside the top-N structure, together with the last-update time used
for tie-breaking. -/
structure Entry where
  pid : Nat
  score : Nat
  lastUpdate : Nat
deriving DecidableEq, Repr

/-- The leaderboard ordering: score descending, ties broken by earliest
last-update time. -/
def entryLE (a b : Entry) : Prop :=
  b.score < a.score ∨ (a.score = b.score ∧ a.lastUpdate ≤ b.lastUpdate)

instance : DecidableRel entryLE := fun a b => by
  unfold entryLE; infer_instance

instance : IsTotal Entry entryLE := by
  constructor
  intro a b
  unfold entryLE
  omega

instance : IsTrans Entry entryLE := by
  constructor
  intro a b c hab hbc
  unfold entryLE at *
  omega

/-- Modelled from the spec: the incrementally maintained top-N structure.
`capN` is the fixed capacity N; `entries` is kept sorted by `entryLE`. -/
structure LeaderboardIndex where
  capN : Nat
  entries : List Entry
deriving DecidableEq, Repr

/-- Modelled from the spec: `snapshot()` — the ordered sequence of visible
(participant id, score) pairs, rank given by position. -/
def snapshot (idx : LeaderboardIndex) : List (Nat × Nat) :=
  idx.entries.map (fun e => (e.pid, e.score))

/-- Modelled from the spec: `update(participantId, newScore)` by the
candidate-and-cutoff algorithm.  If the participant is already in the
top-N, its entry gets the new score and the structure is re-sorted (a
same-score update leaves the visible board unchanged and reports no
change); otherwise the entry is inserted only when the structure holds
fewer than N entries or newScore exceeds the current Nth-place score,
evicting the previous Nth entry.  Returns whether the visible top-N set or
ordering changed. -/
def update (idx : LeaderboardIndex) (pid newScore now : Nat) :
    Bool × LeaderboardIndex :=
  match idx.entries.find? (fun e => e.pid == pid) with
  | some old =>
    if old.score = newScore then
      (false, idx)
    else
      (true, ⟨idx.capN,
        List.orderedInsert entryLE ⟨pid, newScore, now⟩
          (idx.entries.filter (fun e => !(e.pid == pid)))⟩)
  | none =>
    if idx.entries.length < idx.capN then
      (true, ⟨idx.capN,
        List.orderedInsert entryLE ⟨pid, newScore, now⟩ idx.entries⟩)
    else
      match idx.entries.getLast? with
      | some nth =>
        if nth.score < newScore then
          (true, ⟨idx.capN,
            List.orderedInsert entryLE ⟨pid, newScore, now⟩
              idx.entries.dropLast⟩)
        else
          (false, idx)
      | none => (false, idx)

/-- Well-formedness of the top-N structure: sorted, bounded by N, and each
participant appears at most once. -/
def LbWf (idx : LeaderboardIndex) : Prop :=
  idx.entries.Sorted entryLE ∧ idx.entries.length ≤ idx.capN ∧
    (idx.entries.map (·.pid)).Nodup

instance (idx : LeaderboardIndex) : Decidable (LbWf idx) := by
  unfold LbWf; infer_instance

/-- The states of a LeaderboardIndex of capacity N reachable from the
documented initialization (empty, N fixed at startup) by `update` calls. -/
inductive LbReachable (N : Nat) : LeaderboardIndex → Prop
  | init : LbReachable N ⟨N, []⟩
  | step (pid s t : Nat) {idx : LeaderboardIndex} :
      LbReachable N idx → LbReachable N (update idx pid s t).2

/-- Modelled from the spec: a BroadcastMessage — snapshot of the top-N list
plus a monotonically increasing sequence number and timestamp. -/
structure BroadcastMessage where
  seq : Nat
  board : List (Nat × Nat)
  sentAt : Nat
deriving DecidableEq, Repr

/-- Modelled from the spec: one subscription — its own bounded delivery
queue (`pending`), the messages the observer has already drained
(`delivered`), and the gap marker set when the queue overflowed. -/
structure Subscriber where
  sid : Nat
  delivered : List BroadcastMessage
  pending : List BroadcastMessage
  gap : Bool
deriving DecidableEq, Repr

/-- Modelled from the spec: the BroadcastHub — per-instance strictly
increasing sequence counter and the current subscriptions, each with its
own queue of capacity `cap`. -/
structure BroadcastHub where
  cap : Nat
  nextSeq : Nat
  nextSid : Nat
  subs : List Subscriber
deriving DecidableEq, Repr

/-- The sequence numbers a subscriber receives within its live session, in
order: what it has drained followed by what is queued for it. -/
def receivedSeqs (s : Subscriber) : List Nat :=
  (s.delivered ++ s.pending).map (·.seq)

/-- Modelled from the spec: enqueue one message to a subscription queue of
capacity `cap`; on overflow the oldest queued message is dropped and the
stream is marked as having a gap, never blocking the publisher. -/
def enqueue (cap : Nat) (m : BroadcastMessage) (s : Subscriber) : Subscriber :=
  let q := s.pending ++ [m]
  if cap < q.length then { s with pending := q.tail, gap := true }
  else { s with pending := q }

/-- Modelled from the spec: `publish(leaderboardSnapshot)` assigns the next
sequence number, constructs a BroadcastMessage and delivers it to every
currently-subscribed observer's queue. -/
def publish (board : List (Nat × Nat)) (t : Nat) (h : BroadcastHub) :
    BroadcastHub :=
  { h with nextSeq := h.nextSeq + 1,
           subs := h.subs.map (enqueue h.cap ⟨h.nextSeq, board, t⟩) }

/-- Modelled from the spec: `subscribe()` registers a new observer with an
empty queue and returns its subscription handle. -/
def subscribe (h : BroadcastHub) : Nat × BroadcastHub :=
  (h.nextSid,
   { h with nextSid := h.nextSid + 1,
            subs := h.subs ++ [⟨h.nextSid, [], [], false⟩] })

/-- Modelled from the spec: `unsubscribe(handle)` removes the observer;
in-flight deliveries to it are discarded. -/
def unsubscribe (sid : Nat) (h : BroadcastHub) : BroadcastHub :=
  { h with subs := h.subs.filter (fun s => !(s.sid == sid)) }

/-- Modelled from the spec: an observer drains the next message of its
queue, receiving messages in the order enqueued. -/
def drain (sid : Nat) (h : BroadcastHub) : BroadcastHub :=
  { h with subs := h.subs.map (fun s =>
      if s.sid == sid then
        match s.pending with
        | [] => s
        | m :: rest => { s with delivered := s.delivered ++ [m], pending := rest }
      else s) }

/-- One step of the BroadcastHub: a publish, a subscription, an
unsubscription, or an observer draining its queue. -/
inductive HubStep : BroadcastHub → BroadcastHub → Prop
  | publish (board : List (Nat × Nat)) (t : Nat) (h : BroadcastHub) :
      HubStep h (publish board t h)
  | subscribe (h : BroadcastHub) : HubStep h (subscribe h).2
  | unsubscribe (sid : Nat) (h : BroadcastHub) : HubStep h (unsubscribe sid h)
  | drain (sid : Nat) (h : BroadcastHub) : HubStep h (drain sid h)

/-- The hub states reachable from a fresh hub of queue capacity `cap`. -/
inductive HubReachable (cap : Nat) : BroadcastHub → Prop
  | init : HubReachable cap ⟨cap, 0, 0, []⟩
  | step {h h2 : BroadcastHub} :
      HubReachable cap h → HubStep h h2 → HubReachable cap h2

/-- Modelled from the spec: the errors `submit` surfaces synchronously to
its caller — the token errors and the fatal ledger overflow. -/
inductive SubmitError
  | tokenErr (e : TokenError)
  | overflow
deriving DecidableEq, Repr

/-- The whole engine state composed by the ScoreUpdateCoordinator. -/
structure SystemState where
  registry : Registry
  ledger : ScoreLedger
  board : LeaderboardIndex
  hub : BroadcastHub
deriving DecidableEq, Repr

/-- The caller's current rank: position in the visible top-N, or `none`
(unranked) when outside it. -/
def rankOf (idx : LeaderboardIndex) (pid : Nat) : Option Nat :=
  (idx.entries.findIdx? (fun e => e.pid == pid)).map (· + 1)

/-- Modelled from the spec: `submit(tokenId)` — redeem the token; on
success apply the delta to the ledger, update the leaderboard index,
publish the snapshot if the leaderboard changed, and return the caller's
new score and current rank.  A token failure returns the error
synchronously and leaves all state unchanged. -/
def submit (maxScore now tid : Nat) (st : SystemState) :
    Except SubmitError (Nat × Option Nat) × SystemState :=
  match redeem now tid st.registry with
  | (Except.error e, _) => (Except.error (SubmitError.tokenErr e), st)
  | (Except.ok (pid, pv), reg2) =>
    match applyDelta maxScore pid pv now st.ledger with
    | (Except.error _, _) =>
      (Except.error SubmitError.overflow, { st with registry := reg2 })
    | (Except.ok (newScore, _), led2) =>
      let r := update st.board pid newScore now
      let hub2 := if r.1 then publish (snapshot r.2) now st.hub else st.hub
      (Except.ok (newScore, rankOf r.2 pid), ⟨reg2, led2, r.2, hub2⟩)

end Engine

namespace Problem5

/-- A product row of the Prisma `Product` model: `id` (uuid, modelled as a
natural), `name`, `sku` (declared `@unique` in the schema), `description`,
`createdAt`.  `updatedAt` plays no role in any claim and is omitted. -/
structure Product where
  id : Nat
  name : String
  sku : String
  description : String
  createdAt : Nat
deriving DecidableEq, Repr

/-- The product table, in insertion order (so ascending `createdAt`), plus
the id generator. -/
structure Db where
  products : List Product
  nextId : Nat
deriving DecidableEq, Repr

/-- The service error classes raised by `product.service.ts`. -/
inductive ServiceError
  | NotFoundError (msg : String)
  | ConflictError (msg : String)
deriving DecidableEq, Repr

/-- `CreateProductDto` / `UpdateProductDto`: name, sku, description, all
required. -/
structure CreateProductDto where
  name : String
  sku : String
  description : String
deriving DecidableEq, Repr

abbrev UpdateProductDto := CreateProductDto

/-- `PatchProductDto`: all fields optional. -/
structure PatchProductDto where
  name : Option String := none
  sku : Option String := none
  description : Option String := none
deriving DecidableEq, Repr

/-- Whether writing `s` into the `sku` column of the row identified by
`self` (`none` for a fresh row) would violate the `@unique` constraint:
some other row already holds that sku.  This is Prisma's `P2002` condition,
which the service converts to `ConflictError`. -/
def skuConflict (prods : List Product) (s : String) (self : Option Nat) : Bool :=
  prods.any (fun p => p.sku == s && !(self == some p.id))

/-- `productService.create`: inserts the row, converting the unique-sku
violation into `ConflictError('Product with this SKU already exists')`. -/
def create (data : CreateProductDto) (now : Nat) (db : Db) :
    Except ServiceError Product × Db :=
  if skuConflict db.products data.sku none then
    (Except.error (ServiceError.ConflictError "Product with this SKU already exists"), db)
  else
    let p : Product := ⟨db.nextId, data.name, data.sku, data.description, now⟩
    (Except.ok p, ⟨db.products ++ [p], db.nextId + 1⟩)

/-- `productService.getById`: `findUnique` by id, `NotFoundError('Product
not found')` when absent. -/
def getById (id : Nat) (db : Db) : Except ServiceError Product :=
  match db.products.find? (fun p => p.id == id) with
  | none => Except.error (ServiceError.NotFoundError "Product not found")
  | some p => Except.ok p

/-- `productService.update` (PUT): existence check via `getById`, then an
in-place row update replacing all three fields, converting the unique-sku
violation into `ConflictError`. -/
def update (id : Nat) (data : UpdateProductDto) (db : Db) :
    Except ServiceError Product × Db :=
  match db.products.find? (fun p => p.id == id) with
  | none => (Except.error (ServiceError.NotFoundError "Product not found"), db)
  | some old =>
    if skuConflict db.products data.sku (some id) then
      (Except.error (ServiceError.ConflictError "Product with this SKU already exists"), db)
    else
      let p : Product :=
        { old with name := data.name, sku := data.sku, description := data.description }
      (Except.ok p,
       ⟨db.products.map (fun q => if q.id == id then p else q), db.nextId⟩)

/-- `productService.patch` (PATCH): existence check via `getById`, then an
in-place row update of the supplied fields only, converting the unique-sku
violation into `ConflictError`. -/
def patch (id : Nat) (data : PatchProductDto) (db : Db) :
    Except ServiceError Product × Db :=
  match db.products.find? (fun p => p.id == id) with
  | none => (Except.error (ServiceError.NotFoundError "Product not found"), db)
  | some old =>
    let p : Product :=
      { old with name := data.name.getD old.name, sku := data.sku.getD old.sku,
                 description := data.description.getD old.description }
    if skuConflict db.products p.sku (some id) then
      (Except.error (ServiceError.ConflictError "Product with this SKU already exists"), db)
    else
      (Except.ok p,
       ⟨db.products.map (fun q => if q.id == id then p else q), db.nextId⟩)

/-- `productService.delete`: existence check via `getById`, then removes
the row. -/
def delete (id : Nat) (db : Db) : Except ServiceError Unit × Db :=
  match db.products.find? (fun p => p.id == id) with
  | none => (Except.error (ServiceError.NotFoundError "Product not found"), db)
  | some _ =>
    (Except.ok (), ⟨db.products.filter (fun p => !(p.id == id)), db.nextId⟩)

/-- `ListProductsFilters`: optional name/sku substring filters, optional
limit and offset. -/
structure ListProductsFilters where
  name : Option String := none
  sku : Option String := none
  limit : Option Nat := none
  offset : Option Nat := none
deriving DecidableEq, Repr

/-- Prisma's `contains` string filter: substring containment. -/
def strContains (hay pat : String) : Bool :=
  decide (List.IsInfix pat.data hay.data)

/-- The `where` clause built by `productService.list`: each filter applies
only when the query value is present and truthy (a present empty string is
falsy in `if (name)` and is skipped). -/
def matchesFilters (nameF skuF : Option String) (p : Product) : Bool :=
  (match nameF with
   | none => true
   | some n => if n.isEmpty then true else strContains p.name n) &&
  (match skuF with
   | none => true
   | some s => if s.isEmpty then true else strContains p.sku s)

/-- `productService.list`: limit defaults to 50 and offset to 0 when
absent; rows matching the `where` clause are ordered by `createdAt`
descending (reverse insertion order), paginated by `skip offset` then
`take limit`; `total` counts all matching rows.  Returns
(products, total). -/
def list (filters : ListProductsFilters) (db : Db) : List Product × Nat :=
  let lim := filters.limit.getD 50
  let off := filters.offset.getD 0
  let matched := (db.products.filter (matchesFilters filters.name filters.sku)).reverse
  ((matched.drop off).take lim, matched.length)

/-- The character test of the zod regex `^\d+$`. -/
def isDigits (s : String) : Bool :=
  !s.isEmpty && s.data.all (·.isDigit)

/-- `parseInt(val, 10)` on a digit string. -/
def parseDigits (s : String) : Nat :=
  s.data.foldl (fun a c => a * 10 + (c.toNat - 48)) 0

/-- The `limit` branch of `listProductsSchema`: absent means 50; a present
value must match `^\d+$` (else validation fails, `none` here) and is then
capped at 100. -/
def validatedLimit (v : Option String) : Option Nat :=
  match v with
  | none => some 50
  | some s => if isDigits s then some (min (parseDigits s) 100) else none

/-- The `offset` branch of `listProductsSchema`: absent means 0; a present
value must match `^\d+$` (else validation fails, `none` here). -/
def validatedOffset (v : Option String) : Option Nat :=
  match v with
  | none => some 0
  | some s => if isDigits s then some (parseDigits s) else none

/-- The database states reachable from an empty store through the service
operations. -/
inductive DbReachable : Db → Prop
  | init : DbReachable ⟨[], 0⟩
  | createStep (data : CreateProductDto) (now : Nat) {db : Db} :
      DbReachable db → DbReachable (create data now db).2
  | updateStep (id : Nat) (data : UpdateProductDto) {db : Db} :
      DbReachable db → DbReachable (update id data db).2
  | patchStep (id : Nat) (data : PatchProductDto) {db : Db} :
      DbReachable db → DbReachable (patch id data db).2
  | deleteStep (id : Nat) {db : Db} :
      DbReachable db → DbReachable (delete id db).2

/-- Well-formedness of the store: ids unique, skus unique (the `@unique`
index), ids below the generator. -/
def DbWf (db : Db) : Prop :=
  (db.products.map (·.id)).Nodup ∧ (db.products.map (·.sku)).Nodup ∧
    ∀ p ∈ db.products, p.id < db.nextId

instance (db : Db) : Decidable (DbWf db) := by
  unfold DbWf; infer_instance

end Problem5

namespace Engine

theorem lookupToken_markRedeemed (tid : Nat) (reg : Registry) :
    lookupToken tid (markRedeemed tid reg)
      = (lookupToken tid reg).map (fun t => { t with state := TokenState.redeemed }) := by
  unfold lookupToken markRedeemed
  induction reg with
  | nil => rfl
  | cons kv rest ih =>
    rw [List.map_cons]
    by_cases h : kv.1 = tid
    · rw [if_pos (show (kv.1 == tid) = true by simp [h]),
        List.find?_cons_of_pos _ (by simp [h]),
        List.find?_cons_of_pos _ (by simp [h])]
      rfl
    · rw [if_neg (show ¬ (kv.1 == tid) = true by simp [h]),
        List.find?_cons_of_neg _ (by simp [h]),
        List.find?_cons_of_neg _ (by simp [h])]
      exact ih

/-- C1: the first redemption of an existing, unexpired, unredeemed token
succeeds with the owning participant and point value and marks the token
redeemed; thereafter every further redemption of the same token id — at
any time, so in particular the loser of a race of two concurrent redeems
serialized at the registry's atomicity boundary — fails with
`TokenAlreadyUsed`.  Hence at most one of two redeem calls succeeds. -/
theorem redeem_exactly_once (now tid : Nat) (reg : Registry) (tok : ActionToken)
    (hfind : lookupToken tid reg = some tok)
    (hunred : tok.state = TokenState.unredeemed)
    (hexp : now ≤ tok.expiresAt) :
    (redeem now tid reg).1 = Except.ok (tok.participantId, tok.pointValue) ∧
      ∀ later : Nat,
        (redeem later tid (redeem now tid reg).2).1
          = Except.error TokenError.TokenAlreadyUsed := by
  have hred : redeem now tid reg
      = (Except.ok (tok.participantId, tok.pointValue), markRedeemed tid reg) := by
    unfold redeem
    rw [hfind]
    simp [hunred, Nat.not_lt.mpr hexp]
  refine ⟨by rw [hred], fun later => ?_⟩
  rw [hred]
  unfold redeem
  rw [lookupToken_markRedeemed, hfind]
  simp

theorem redeem_exactly_once_witness :
    (redeem 10 7 [(7, ⟨1, 100, 0, 60, TokenState.unredeemed⟩)]).1
        = Except.ok (1, 100) ∧
      ∀ later : Nat,
        (redeem later 7 (redeem 10 7 [(7, ⟨1, 100, 0, 60, TokenState.unredeemed⟩)]).2).1
          = Except.error TokenError.TokenAlreadyUsed :=
  redeem_exactly_once 10 7 [(7, ⟨1, 100, 0, 60, TokenState.unredeemed⟩)]
    ⟨1, 100, 0, 60, TokenState.unredeemed⟩ (by decide) (by decide) (by decide)

theorem ledgerGet_mapSet (pid : Nat) (r : ScoreRecord) (led : ScoreLedger)
    (h : led.any (fun kv => kv.1 == pid) = true) :
    ledgerGet pid (led.map (fun kv => if kv.1 == pid then (pid, r) else kv))
      = some r := by
  unfold ledgerGet
  induction led with
  | nil => simp at h
  | cons kv rest ih =>
    rw [List.map_cons]
    by_cases hk : kv.1 = pid
    · rw [if_pos (show (kv.1 == pid) = true by simp [hk]),
        List.find?_cons_of_pos _ (by simp)]
      rfl
    · have hrest : rest.any (fun kv => kv.1 == pid) = true := by
        simpa [List.any_cons, hk] using h
      rw [if_neg (show ¬ (kv.1 == pid) = true by simp [hk]),
        List.find?_cons_of_neg _ (by simp [hk])]
      exact ih hrest

theorem ledgerGet_appendSet (pid : Nat) (r : ScoreRecord) (led : ScoreLedger)
    (h : led.any (fun kv => kv.1 == pid) = false) :
    ledgerGet pid (led ++ [(pid, r)]) = some r := by
  unfold ledgerGet
  induction led with
  | nil =>
    rw [List.nil_append, List.find?_cons_of_pos _ (by simp)]
    rfl
  | cons kv rest ih =>
    have hk : ¬ kv.1 = pid := by
      intro he
      simp [List.any_cons, he] at h
    have hrest : rest.any (fun kv => kv.1 == pid) = false := by
      simpa [List.any_cons, hk] using h
    rw [List.cons_append, List.find?_cons_of_neg _ (by simp [hk])]
    exact ih hrest

theorem ledgerGet_ledgerSet (pid : Nat) (r : ScoreRecord) (led : ScoreLedger) :
    ledgerGet pid (ledgerSet pid r led) = some r := by
  unfold ledgerSet
  by_cases h : led.any (fun kv => kv.1 == pid) = true
  · rw [if_pos h]
    exact ledgerGet_mapSet pid r led h
  · have hf : led.any (fun kv => kv.1 == pid) = false := by
      simpa only [Bool.not_eq_true] using h
    rw [if_neg h]
    exact ledgerGet_appendSet pid r led hf

/-- C7: scores are naturals and `applyDelta` never wraps or clamps — when
the current score plus the delta exceeds the representable range it fails
with `ScoreOverflow` leaving the ledger (stored score and version)
unchanged, and otherwise it returns the exact sum with the version
incremented, storing exactly that record. -/
theorem applyDelta_exact (maxScore pid delta now : Nat) (led : ScoreLedger) :
    (maxScore < (currentRecord pid led).score + delta →
      applyDelta maxScore pid delta now led
        = (Except.error LedgerError.ScoreOverflow, led)) ∧
    ((currentRecord pid led).score + delta ≤ maxScore →
      (applyDelta maxScore pid delta now led).1
          = Except.ok ((currentRecord pid led).score + delta,
              (currentRecord pid led).version + 1) ∧
        ledgerGet pid (applyDelta maxScore pid delta now led).2
          = some ⟨(currentRecord pid led).score + delta, now,
              (currentRecord pid led).version + 1⟩) := by
  constructor
  · intro hover
    unfold applyDelta
    simp [hover]
  · intro hok
    unfold applyDelta
    simp only [Nat.not_lt.mpr hok, if_neg (Nat.not_lt.mpr hok)]
    exact ⟨rfl, ledgerGet_ledgerSet pid _ led⟩

theorem applyDelta_exact_witness :
    applyDelta 50 1 100 5 [] = (Except.error LedgerError.ScoreOverflow, []) ∧
      (applyDelta 1000 1 100 5 []).1 = Except.ok (100, 1) ∧
      ledgerGet 1 (applyDelta 1000 1 100 5 []).2 = some ⟨100, 5, 1⟩ := by
  refine ⟨(applyDelta_exact 50 1 100 5 []).1 (by decide), ?_, ?_⟩
  · exact ((applyDelta_exact 1000 1 100 5 []).2 (by decide)).1
  · exact ((applyDelta_exact 1000 1 100 5 []).2 (by decide)).2

/-- C3: a `submit` that fails with a token error (`TokenNotFound`,
`TokenExpired` or `TokenAlreadyUsed`, i.e. before the `ScoreApplied`
stage) returns that error synchronously and leaves the whole system state
— token registry, score ledger, leaderboard index and broadcast hub —
exactly unchanged: no partial credit. -/
theorem submit_token_error_state_unchanged (maxScore now tid : Nat) (st : SystemState)
    (e : TokenError) (herr : (redeem now tid st.registry).1 = Except.error e) :
    submit maxScore now tid st = (Except.error (SubmitError.tokenErr e), st) := by
  rcases hp : redeem now tid st.registry with ⟨r1, r2⟩
  rw [hp] at herr
  simp only at herr
  subst herr
  unfold submit
  rw [hp]

theorem submit_token_error_state_unchanged_witness :
    submit 1000 99 7
        ⟨[(7, ⟨1, 100, 0, 60, TokenState.unredeemed⟩)], [], ⟨2, []⟩, ⟨2, 0, 0, []⟩⟩
      = (Except.error (SubmitError.tokenErr TokenError.TokenExpired),
         ⟨[(7, ⟨1, 100, 0, 60, TokenState.unredeemed⟩)], [], ⟨2, []⟩, ⟨2, 0, 0, []⟩⟩) :=
  submit_token_error_state_unchanged 1000 99 7
    ⟨[(7, ⟨1, 100, 0, 60, TokenState.unredeemed⟩)], [], ⟨2, []⟩, ⟨2, 0, 0, []⟩⟩
    TokenError.TokenExpired rfl

/-- C5: resubmitting a token that is already in the redeemed state fails
with `TokenAlreadyUsed` and leaves every participant's total score and the
visible leaderboard exactly as they were — it never double-credits. -/
theorem submit_redeemed_token_idempotent (maxScore now tid : Nat)
    (st : SystemState) (tok : ActionToken)
    (hfind : lookupToken tid st.registry = some tok)
    (hred : tok.state = TokenState.redeemed) :
    (submit maxScore now tid st).1
        = Except.error (SubmitError.tokenErr TokenError.TokenAlreadyUsed) ∧
      (∀ p : Nat,
        ledgerGet p (submit maxScore now tid st).2.ledger = ledgerGet p st.ledger) ∧
      snapshot (submit maxScore now tid st).2.board = snapshot st.board := by
  have herr : redeem now tid st.registry
      = (Except.error TokenError.TokenAlreadyUsed, st.registry) := by
    unfold redeem
    rw [hfind]
    simp [hred]
  have hsub : submit maxScore now tid st
      = (Except.error (SubmitError.tokenErr TokenError.TokenAlreadyUsed), st) := by
    unfold submit
    rw [herr]
  rw [hsub]
  exact ⟨rfl, fun p => rfl, rfl⟩

theorem submit_redeemed_token_idempotent_witness :
    (submit 1000 10 7
        ⟨[(7, ⟨1, 100, 0, 60, TokenState.redeemed⟩)],
         [(1, ⟨100, 5, 1⟩)], ⟨2, [⟨1, 100, 5⟩]⟩, ⟨2, 1, 0, []⟩⟩).1
        = Except.error (SubmitError.tokenErr TokenError.TokenAlreadyUsed) ∧
      (∀ p : Nat,
        ledgerGet p (submit 1000 10 7
          ⟨[(7, ⟨1, 100, 0, 60, TokenState.redeemed⟩)],
           [(1, ⟨100, 5, 1⟩)], ⟨2, [⟨1, 100, 5⟩]⟩, ⟨2, 1, 0, []⟩⟩).2.ledger
          = ledgerGet p [(1, ⟨100, 5, 1⟩)]) ∧
      snapshot (submit 1000 10 7
          ⟨[(7, ⟨1, 100, 0, 60, TokenState.redeemed⟩)],
           [(1, ⟨100, 5, 1⟩)], ⟨2, [⟨1, 100, 5⟩]⟩, ⟨2, 1, 0, []⟩⟩).2.board
        = snapshot ⟨2, [⟨1, 100, 5⟩]⟩ :=
  submit_redeemed_token_idempotent 1000 10 7
    ⟨[(7, ⟨1, 100, 0, 60, TokenState.redeemed⟩)],
     [(1, ⟨100, 5, 1⟩)], ⟨2, [⟨1, 100, 5⟩]⟩, ⟨2, 1, 0, []⟩⟩
    ⟨1, 100, 0, 60, TokenState.redeemed⟩ (by decide) (by decide)

end Engine

namespace Problem5

/-- C9: for a product id absent from the store, `update`, `patch` and
`delete` all fail with the `NotFoundError` raised by the initial
existence check, and leave the product store unchanged — no row created,
modified or removed. -/
theorem missing_id_error_paths (id : Nat) (data : UpdateProductDto)
    (pdata : PatchProductDto) (db : Db)
    (h : db.products.find? (fun p => p.id == id) = none) :
    getById id db = Except.error (ServiceError.NotFoundError "Product not found") ∧
      update id data db
        = (Except.error (ServiceError.NotFoundError "Product not found"), db) ∧
      patch id pdata db
        = (Except.error (ServiceError.NotFoundError "Product not found"), db) ∧
      delete id db
        = (Except.error (ServiceError.NotFoundError "Product not found"), db) := by
  refine ⟨?_, ?_, ?_, ?_⟩
  · unfold getById
    rw [h]
  · unfold update
    rw [h]
  · unfold patch
    rw [h]
  · unfold delete
    rw [h]

theorem missing_id_error_paths_witness :
    getById 5 ⟨[⟨0, "Laptop", "LAP-1", "d", 0⟩], 1⟩
        = Except.error (ServiceError.NotFoundError "Product not found") ∧
      update 5 ⟨"a", "b", "c"⟩ ⟨[⟨0, "Laptop", "LAP-1", "d", 0⟩], 1⟩
        = (Except.error (ServiceError.NotFoundError "Product not found"),
           ⟨[⟨0, "Laptop", "LAP-1", "d", 0⟩], 1⟩) ∧
      patch 5 {} ⟨[⟨0, "Laptop", "LAP-1", "d", 0⟩], 1⟩
        = (Except.error (ServiceError.NotFoundError "Product not found"),
           ⟨[⟨0, "Laptop", "LAP-1", "d", 0⟩], 1⟩) ∧
      delete 5 ⟨[⟨0, "Laptop", "LAP-1", "d", 0⟩], 1⟩
        = (Except.error (ServiceError.NotFoundError "Product not found"),
           ⟨[⟨0, "Laptop", "LAP-1", "d", 0⟩], 1⟩) :=
  missing_id_error_paths 5 ⟨"a", "b", "c"⟩ {} ⟨[⟨0, "Laptop", "LAP-1", "d", 0⟩], 1⟩
    (by decide)

/-- C8: the validated limit is the minimum of the supplied numeric limit
and 100 (default 50 when absent), the validated offset defaults to 0 when
absent, and with that validated limit `list` returns at most
min(limit, 100) products while `total` counts all rows matching the
filters, independent of limit and offset. -/
theorem list_pagination_bounds (s : String) (hs : isDigits s = true)
    (off : Option Nat) (db : Db) (nameF skuF : Option String) :
    validatedLimit none = some 50 ∧
      validatedOffset none = some 0 ∧
      validatedLimit (some s) = some (min (parseDigits s) 100) ∧
      (list ⟨nameF, skuF, some (min (parseDigits s) 100), off⟩ db).1.length
        ≤ min (parseDigits s) 100 ∧
      (list ⟨nameF, skuF, some (min (parseDigits s) 100), off⟩ db).2
        = (db.products.filter (matchesFilters nameF skuF)).length := by
  refine ⟨rfl, rfl, ?_, ?_, ?_⟩
  · simp [validatedLimit, hs]
  · exact List.length_take_le _ _
  · unfold list
    simp [List.length_reverse]

theorem list_pagination_bounds_witness :
    validatedLimit none = some 50 ∧
      validatedOffset none = some 0 ∧
      validatedLimit (some "250") = some (min (parseDigits "250") 100) ∧
      (list ⟨none, none, some (min (parseDigits "250") 100), some 1⟩
          ⟨[⟨0, "Laptop", "LAP-1", "d", 0⟩], 1⟩).1.length
        ≤ min (parseDigits "250") 100 ∧
      (list ⟨none, none, some (min (parseDigits "250") 100), some 1⟩
          ⟨[⟨0, "Laptop", "LAP-1", "d", 0⟩], 1⟩).2
        = (([⟨0, "Laptop", "LAP-1", "d", 0⟩] : List Product).filter
            (matchesFilters none none)).length :=
  list_pagination_bounds "250" (by decide) (some 1)
    ⟨[⟨0, "Laptop", "LAP-1", "d", 0⟩], 1⟩ none none

end Problem5

namespace Engine

theorem nodup_pid_orderedInsert (e : Entry) (l : List Entry)
    (hn : (l.map (·.pid)).Nodup) (hnotin : e.pid ∉ l.map (·.pid)) :
    ((List.orderedInsert entryLE e l).map (·.pid)).Nodup := by
  have hperm := (List.perm_orderedInsert entryLE e l).map (·.pid)
  exact hperm.nodup_iff.mpr (List.nodup_cons.mpr ⟨hnotin, hn⟩)

theorem pid_notMem_of_find?_none (pid : Nat) (l : List Entry)
    (hfind : l.find? (fun e => e.pid == pid) = none) :
    pid ∉ l.map (·.pid) := by
  intro hmem
  obtain ⟨e, he, hepid⟩ := List.mem_map.mp hmem
  exact absurd (by simp [hepid]) (List.find?_eq_none.mp hfind e he)

theorem lbwf_update (idx : LeaderboardIndex) (pid s t : Nat) (hwf : LbWf idx) :
    LbWf (update idx pid s t).2 ∧ (update idx pid s t).2.capN = idx.capN := by
  obtain ⟨hsort, hlen, hnodup⟩ := hwf
  rcases hfind : idx.entries.find? (fun e => e.pid == pid) with _ | old
  · by_cases hroom : idx.entries.length < idx.capN
    · simp only [update, hfind, if_pos hroom]
      refine ⟨⟨List.Sorted.orderedInsert _ _ hsort, ?_, ?_⟩, trivial⟩
      · dsimp only
        rw [List.orderedInsert_length]
        omega
      · exact nodup_pid_orderedInsert _ _ hnodup
          (pid_notMem_of_find?_none pid _ hfind)
    · rcases hlast : idx.entries.getLast? with _ | nth
      · simp only [update, hfind, if_neg hroom, hlast]
        exact ⟨⟨hsort, hlen, hnodup⟩, trivial⟩
      · by_cases hbetter : nth.score < s
        · simp only [update, hfind, if_neg hroom, hlast, if_pos hbetter]
          have hne : idx.entries ≠ [] := by
            intro he
            rw [he] at hlast
            simp at hlast
          have hpos : 0 < idx.entries.length := List.length_pos.mpr hne
          have hdl : List.Sublist idx.entries.dropLast idx.entries :=
            List.dropLast_sublist idx.entries
          refine ⟨⟨List.Sorted.orderedInsert _ _ (hsort.sublist hdl), ?_, ?_⟩, trivial⟩
          · dsimp only
            rw [List.orderedInsert_length, List.length_dropLast]
            omega
          · refine nodup_pid_orderedInsert _ _ (hnodup.sublist (hdl.map _)) ?_
            intro hmem
            obtain ⟨e, he, hepid⟩ := List.mem_map.mp hmem
            exact pid_notMem_of_find?_none pid _ hfind
              (List.mem_map.mpr ⟨e, hdl.mem he, hepid⟩)
        · simp only [update, hfind, if_neg hroom, hlast, if_neg hbetter]
          exact ⟨⟨hsort, hlen, hnodup⟩, trivial⟩
  · by_cases hsame : old.score = s
    · simp only [update, hfind, if_pos hsame]
      exact ⟨⟨hsort, hlen, hnodup⟩, trivial⟩
    · simp only [update, hfind, if_neg hsame]
      have hmemold := List.mem_of_find?_eq_some hfind
      have hpidold : old.pid = pid := by
        have := List.find?_some hfind
        simpa using this
      have hfsub : List.Sublist (idx.entries.filter (fun e => !(e.pid == pid)))
          idx.entries := List.filter_sublist idx.entries
      refine ⟨⟨List.Sorted.orderedInsert _ _ (hsort.sublist hfsub), ?_, ?_⟩, trivial⟩
      · dsimp only
        rw [List.orderedInsert_length]
        have hlt : (idx.entries.filter (fun e => !(e.pid == pid))).length
            < idx.entries.length :=
          List.length_filter_lt_length_iff_exists.mpr
            ⟨old, hmemold, by simp [hpidold]⟩
        omega
      · refine nodup_pid_orderedInsert _ _ (hnodup.sublist (hfsub.map _)) ?_
        intro hmem
        obtain ⟨e, he, hepid⟩ := List.mem_map.mp hmem
        have := (List.mem_filter.mp he).2
        simp [hepid] at this

/-- C2: in every reachable state of a LeaderboardIndex of capacity N, the
sequence returned by `snapshot` is sorted by score descending with ties
broken by earliest last-update time (the `entryLE` order on the underlying
entries), has length at most N, and lists each participant id at most
once. -/
theorem lb_snapshot_invariant (N : Nat) (idx : LeaderboardIndex)
    (hr : LbReachable N idx) :
    idx.entries.Sorted entryLE ∧ (snapshot idx).length ≤ N ∧
      ((snapshot idx).map Prod.fst).Nodup := by
  have hmain : LbWf idx ∧ idx.capN = N := by
    induction hr with
    | init => exact ⟨⟨List.sorted_nil, by simp, List.nodup_nil⟩, rfl⟩
    | step pid s t hr ih =>
      obtain ⟨hwf, hcap⟩ := ih
      have := lbwf_update _ pid s t hwf
      exact ⟨this.1, this.2.trans hcap⟩
  obtain ⟨⟨hsort, hlen, hnodup⟩, hcap⟩ := hmain
  refine ⟨hsort, ?_, ?_⟩
  · rw [snapshot, List.length_map]
    omega
  · rw [snapshot, List.map_map]
    exact hnodup

theorem mem_pid_orderedInsert (pid s t : Nat) (l : List Entry) :
    pid ∈ (List.orderedInsert entryLE ⟨pid, s, t⟩ l).map (·.pid) :=
  List.mem_map.mpr ⟨⟨pid, s, t⟩,
    (List.perm_orderedInsert entryLE _ l).mem_iff.mpr (List.mem_cons_self _ _), rfl⟩

theorem snapshot_pids (idx : LeaderboardIndex) :
    (snapshot idx).map Prod.fst = idx.entries.map (·.pid) := by
  rw [snapshot, List.map_map]
  rfl

/-- C6: `update` follows the candidate-and-cutoff algorithm: for a
well-formed index, a participant not in the top-N is inserted (reported as
a change) exactly when the structure holds fewer than N entries or the new
score exceeds the current Nth-place score; and in every case the returned
boolean is true exactly when the visible top-N snapshot — membership or
ordering — changed. -/
theorem update_changed_iff (idx : LeaderboardIndex) (pid s t : Nat)
    (hwf : LbWf idx) :
    ((update idx pid s t).1 = true ↔
        snapshot (update idx pid s t).2 ≠ snapshot idx) ∧
      (idx.entries.find? (fun e => e.pid == pid) = none →
        ((update idx pid s t).1 = true ↔
          idx.entries.length < idx.capN ∨
            ∃ nth, idx.entries.getLast? = some nth ∧ nth.score < s)) := by
  obtain ⟨hsort, hlen, hnodup⟩ := hwf
  rcases hfind : idx.entries.find? (fun e => e.pid == pid) with _ | old
  · have hnotin := pid_notMem_of_find?_none pid _ hfind
    by_cases hroom : idx.entries.length < idx.capN
    · simp only [update, hfind, if_pos hroom]
      constructor
      · simp only [true_iff, ne_eq]
        intro heq
        have hlene := congrArg List.length heq
        rw [snapshot, snapshot, List.length_map, List.length_map,
          List.orderedInsert_length] at hlene
        omega
      · intro _
        simp [hroom]
    · rcases hlast : idx.entries.getLast? with _ | nth
      · simp only [update, hfind, if_neg hroom, hlast]
        constructor
        · simp
        · intro _
          simp [hroom, hlast]
      · by_cases hbetter : nth.score < s
        · simp only [update, hfind, if_neg hroom, hlast, if_pos hbetter]
          constructor
          · simp only [true_iff, ne_eq]
            intro heq
            have hpids := congrArg (List.map Prod.fst) heq
            rw [snapshot_pids, snapshot_pids] at hpids
            refine hnotin ?_
            rw [← hpids]
            exact mem_pid_orderedInsert pid s t _
          · intro _
            exact ⟨fun _ => Or.inr ⟨nth, rfl, hbetter⟩, fun _ => trivial⟩
        · simp only [update, hfind, if_neg hroom, hlast, if_neg hbetter]
          constructor
          · simp
          · intro _
            constructor
            · intro hfalse
              exact absurd hfalse (by simp)
            · intro hcase
              rcases hcase with hr | ⟨nth2, hn2, hlt2⟩
              · exact absurd hr hroom
              · injection hn2 with hn2
                subst hn2
                exact absurd hlt2 hbetter
  · constructor
    · by_cases hsame : old.score = s
      · simp only [update, hfind, if_pos hsame]
        simp
      · simp only [update, hfind, if_neg hsame]
        simp only [true_iff, ne_eq]
        intro heq
        have hmemold := List.mem_of_find?_eq_some hfind
        have hpidold : old.pid = pid := by
          have := List.find?_some hfind
          simpa using this
        have hmem1 : ((pid, s) : Nat × Nat)
            ∈ snapshot ⟨idx.capN,
                List.orderedInsert entryLE ⟨pid, s, t⟩
                  (idx.entries.filter (fun e => !(e.pid == pid)))⟩ := by
          rw [snapshot]
          exact List.mem_map.mpr ⟨⟨pid, s, t⟩,
            (List.perm_orderedInsert entryLE _ _).mem_iff.mpr
              (List.mem_cons_self _ _), rfl⟩
        rw [heq, snapshot] at hmem1
        obtain ⟨e, he, hepair⟩ := List.mem_map.mp hmem1
        have hepid : e.pid = pid := congrArg Prod.fst hepair
        have hescore : e.score = s := congrArg Prod.snd hepair
        have : e = old :=
          List.inj_on_of_nodup_map hnodup he hmemold (hepid.trans hpidold.symm)
        rw [this] at hescore
        exact hsame hescore
    · intro hnone
      rw [hfind] at hnone
      exact absurd hnone (by simp)

theorem update_changed_iff_witness :
    ((update ⟨2, [⟨1, 90, 1⟩, ⟨2, 80, 2⟩]⟩ 3 85 3).1 = true ↔
        snapshot (update ⟨2, [⟨1, 90, 1⟩, ⟨2, 80, 2⟩]⟩ 3 85 3).2
          ≠ snapshot ⟨2, [⟨1, 90, 1⟩, ⟨2, 80, 2⟩]⟩) ∧
      (([⟨1, 90, 1⟩, ⟨2, 80, 2⟩] : List Entry).find? (fun e => e.pid == 3) = none →
        ((update ⟨2, [⟨1, 90, 1⟩, ⟨2, 80, 2⟩]⟩ 3 85 3).1 = true ↔
          ([⟨1, 90, 1⟩, ⟨2, 80, 2⟩] : List Entry).length < 2 ∨
            ∃ nth, ([⟨1, 90, 1⟩, ⟨2, 80, 2⟩] : List Entry).getLast? = some nth ∧
              nth.score < 85)) :=
  update_changed_iff ⟨2, [⟨1, 90, 1⟩, ⟨2, 80, 2⟩]⟩ 3 85 3 (by decide)

theorem lb_snapshot_invariant_witness :
    ((update (update ⟨2, []⟩ 1 90 1).2 2 80 2).2.entries.Sorted entryLE) ∧
      (snapshot (update (update ⟨2, []⟩ 1 90 1).2 2 80 2).2).length ≤ 2 ∧
      ((snapshot (update (update ⟨2, []⟩ 1 90 1).2 2 80 2).2).map Prod.fst).Nodup :=
  lb_snapshot_invariant 2 (update (update ⟨2, []⟩ 1 90 1).2 2 80 2).2
    (LbReachable.step 2 80 2 (LbReachable.step 1 90 1 LbReachable.init))

/-- Invariant of the hub: every subscriber's received sequence numbers are
strictly increasing and all below the hub's next sequence number. -/
def HubWf (h : BroadcastHub) : Prop :=
  ∀ s ∈ h.subs, (receivedSeqs s).Pairwise (· < ·) ∧
    ∀ n ∈ receivedSeqs s, n < h.nextSeq

theorem receivedSeqs_enqueue_sublist (cap : Nat) (m : BroadcastMessage)
    (s : Subscriber) :
    List.Sublist (receivedSeqs (enqueue cap m s))
      (receivedSeqs s ++ [m.seq]) := by
  unfold enqueue receivedSeqs
  have key : List.map (fun x => x.seq) (s.delivered ++ s.pending) ++ [m.seq]
      = List.map (fun x => x.seq) (s.delivered ++ (s.pending ++ [m])) := by
    simp
  by_cases hov : cap < (s.pending ++ [m]).length
  · rw [if_pos hov]
    dsimp only
    rw [key]
    exact List.Sublist.map _
      ((List.append_sublist_append_left s.delivered).mpr (List.tail_sublist _))
  · rw [if_neg hov]
    dsimp only
    rw [key]

theorem hubwf_step {h h2 : BroadcastHub} (hst : HubStep h h2) (hwf : HubWf h) :
    HubWf h2 := by
  cases hst with
  | publish board t h =>
    intro s hs
    rw [publish] at hs
    dsimp only at hs
    obtain ⟨s0, hs0, rfl⟩ := List.mem_map.mp hs
    obtain ⟨hp, hb⟩ := hwf s0 hs0
    have hsub := receivedSeqs_enqueue_sublist h.cap ⟨h.nextSeq, board, t⟩ s0
    have hpext : (receivedSeqs s0 ++ [h.nextSeq]).Pairwise (· < ·) := by
      rw [List.pairwise_append]
      refine ⟨hp, by simp, ?_⟩
      intro a ha b hbm
      have hbeq : b = h.nextSeq := by simpa using hbm
      rw [hbeq]
      exact hb a ha
    refine ⟨hpext.sublist hsub, ?_⟩
    intro n hn
    have hn2 : n ∈ receivedSeqs s0 ++ [h.nextSeq] := hsub.subset hn
    rw [publish]
    dsimp only
    rcases List.mem_append.mp hn2 with hl | hr
    · exact Nat.lt_succ_of_lt (hb n hl)
    · have : n = h.nextSeq := by simpa using hr
      omega
  | subscribe h =>
    intro s hs
    rw [subscribe] at hs
    dsimp only at hs
    rcases List.mem_append.mp hs with hl | hr
    · exact hwf s hl
    · have hseq : s = ⟨h.nextSid, [], [], false⟩ := by simpa using hr
      subst hseq
      exact ⟨by simp [receivedSeqs], by simp [receivedSeqs]⟩
  | unsubscribe sid h =>
    intro s hs
    rw [unsubscribe] at hs
    dsimp only at hs
    exact hwf s (List.mem_of_mem_filter hs)
  | drain sid h =>
    intro s hs
    rw [drain] at hs
    dsimp only at hs
    obtain ⟨s0, hs0, rfl⟩ := List.mem_map.mp hs
    obtain ⟨hp, hb⟩ := hwf s0 hs0
    by_cases hsid : (s0.sid == sid) = true
    · rw [if_pos hsid]
      rcases hpend : s0.pending with _ | ⟨m, rest⟩
      · exact ⟨hp, hb⟩
      · have hre : receivedSeqs
            { s0 with delivered := s0.delivered ++ [m], pending := rest }
            = receivedSeqs s0 := by
          unfold receivedSeqs
          dsimp only
          rw [hpend, List.append_assoc]
          rfl
        rw [hre]
        exact ⟨hp, hb⟩
    · rw [if_neg hsid]
      exact ⟨hp, hb⟩

theorem hub_reachable_wf (cap : Nat) (h : BroadcastHub)
    (hr : HubReachable cap h) : HubWf h := by
  induction hr with
  | init =>
    intro s2 hs2
    simp at hs2
  | step hr2 hst ih => exact hubwf_step hst ih

/-- C4: in every reachable hub state, the sequence numbers of the messages
any single subscriber receives within one live session — drained plus
still queued, in delivery order — are strictly increasing: no duplicates
and never a decrease. -/
theorem broadcast_seq_strict_mono (cap : Nat) (h : BroadcastHub)
    (hr : HubReachable cap h) (s : Subscriber) (hs : s ∈ h.subs) :
    (receivedSeqs s).Pairwise (· < ·) :=
  (hub_reachable_wf cap h hr s hs).1

theorem broadcast_seq_strict_mono_witness :
    (receivedSeqs ⟨0, [], [⟨0, [(1, 90)], 1⟩, ⟨1, [(1, 95)], 2⟩], false⟩).Pairwise
      (· < ·) :=
  broadcast_seq_strict_mono 2
    (publish [(1, 95)] 2 (publish [(1, 90)] 1 (subscribe ⟨2, 0, 0, []⟩).2))
    (HubReachable.step
      (HubReachable.step
        (HubReachable.step HubReachable.init (HubStep.subscribe _))
        (HubStep.publish [(1, 90)] 1 _))
      (HubStep.publish [(1, 95)] 2 _))
    ⟨0, [], [⟨0, [(1, 90)], 1⟩, ⟨1, [(1, 95)], 2⟩], false⟩ (by decide)

end Engine

namespace Problem5

theorem nodup_append_singleton {α : Type} (l : List α) (a : α)
    (h1 : l.Nodup) (h2 : a ∉ l) : (l ++ [a]).Nodup := by
  rw [List.nodup_append]
  refine ⟨h1, List.nodup_singleton a, ?_⟩
  intro x hx
  simp only [List.mem_singleton]
  intro he
  exact h2 (he ▸ hx)

theorem rowUpdate_ids (l : List Product) (i : Nat) (pnew : Product)
    (hid : pnew.id = i) :
    (l.map (fun q => if q.id == i then pnew else q)).map (·.id)
      = l.map (·.id) := by
  induction l with
  | nil => rfl
  | cons p rest ih =>
    rw [List.map_cons, List.map_cons, List.map_cons, ih]
    by_cases hp : p.id = i
    · simp [hp, hid]
    · simp [hp]

theorem rowUpdate_skus_nodup (l : List Product) (i : Nat) (pnew : Product)
    (hids : (l.map (·.id)).Nodup) (hskus : (l.map (·.sku)).Nodup)
    (hnoconf : ∀ q ∈ l, q.id ≠ i → q.sku ≠ pnew.sku) :
    ((l.map (fun q => if q.id == i then pnew else q)).map (·.sku)).Nodup := by
  induction l with
  | nil => simp
  | cons p rest ih =>
    rw [List.map_cons, List.nodup_cons] at hids hskus
    obtain ⟨hidhead, hidtail⟩ := hids
    obtain ⟨hskuhead, hskutail⟩ := hskus
    by_cases hp : p.id = i
    · have hrest_eq : rest.map (fun q => if q.id == i then pnew else q) = rest := by
        have : ∀ q ∈ rest, (if q.id == i then pnew else q) = q := by
          intro q hq
          have hqid : q.id ≠ i := by
            intro he
            exact hidhead (List.mem_map.mpr ⟨q, hq, he.trans hp.symm⟩)
          simp [hqid]
        rw [List.map_congr_left this]
        simp
      rw [List.map_cons, if_pos (by simp [hp]), hrest_eq, List.map_cons,
        List.nodup_cons]
      refine ⟨?_, hskutail⟩
      intro hmem
      obtain ⟨q, hq, hqsku⟩ := List.mem_map.mp hmem
      have hqid : q.id ≠ i := by
        intro he
        exact hidhead (List.mem_map.mpr ⟨q, hq, he.trans hp.symm⟩)
      exact hnoconf q (List.mem_cons_of_mem p hq) hqid hqsku
    · rw [List.map_cons, if_neg (by simp [hp]), List.map_cons, List.nodup_cons]
      refine ⟨?_, ih hidtail hskutail
        (fun q hq => hnoconf q (List.mem_cons_of_mem p hq))⟩
      intro hmem
      obtain ⟨x, hx, hxsku⟩ := List.mem_map.mp hmem
      obtain ⟨q, hq, hxq⟩ := List.mem_map.mp hx
      by_cases hqid : q.id = i
      · rw [if_pos (by simp [hqid])] at hxq
        rw [← hxq] at hxsku
        exact hnoconf p (List.mem_cons_self p rest) hp hxsku.symm
      · rw [if_neg (by simp [hqid])] at hxq
        rw [← hxq] at hxsku
        exact hskuhead (List.mem_map.mpr ⟨q, hq, hxsku⟩)

theorem skuConflict_false_sound (l : List Product) (s : String) (i : Nat)
    (hc : skuConflict l s (some i) = false) :
    ∀ q ∈ l, q.id ≠ i → q.sku ≠ s := by
  intro q hq hqid hqsku
  rw [skuConflict, List.any_eq_false] at hc
  exact hc q hq (by simp [hqsku, Ne.symm hqid])

theorem dbwf_create (data : CreateProductDto) (now : Nat) (db : Db)
    (hwf : DbWf db) : DbWf (create data now db).2 := by
  obtain ⟨hids, hskus, hbound⟩ := hwf
  unfold create
  by_cases hc : skuConflict db.products data.sku none = true
  · rw [if_pos hc]
    exact ⟨hids, hskus, hbound⟩
  · rw [if_neg hc]
    have hcf : skuConflict db.products data.sku none = false := by
      simpa only [Bool.not_eq_true] using hc
    have hnos : ∀ q ∈ db.products, q.sku ≠ data.sku := by
      intro q hq hqs
      rw [skuConflict, List.any_eq_false] at hcf
      exact hcf q hq (by simp [hqs])
    refine ⟨?_, ?_, ?_⟩
    · dsimp only
      rw [List.map_append]
      refine nodup_append_singleton _ _ hids ?_
      intro hmem
      obtain ⟨q, hq, hqid⟩ := List.mem_map.mp hmem
      exact absurd hqid (Nat.ne_of_lt (hbound q hq))
    · dsimp only
      rw [List.map_append]
      refine nodup_append_singleton _ _ hskus ?_
      intro hmem
      obtain ⟨q, hq, hqsku⟩ := List.mem_map.mp hmem
      exact hnos q hq hqsku
    · intro q hq
      dsimp only at hq
      rcases List.mem_append.mp hq with hl | hr
      · exact Nat.lt_succ_of_lt (hbound q hl)
      · have : q = ⟨db.nextId, data.name, data.sku, data.description, now⟩ := by
          simpa using hr
        rw [this]
        exact Nat.lt_succ_self _

theorem dbwf_update (id : Nat) (data : UpdateProductDto) (db : Db)
    (hwf : DbWf db) : DbWf (update id data db).2 := by
  obtain ⟨hids, hskus, hbound⟩ := hwf
  rcases hfind : db.products.find? (fun p => p.id == id) with _ | old
  · simp only [update, hfind]
    exact ⟨hids, hskus, hbound⟩
  · have holdid : old.id = id := by
      have := List.find?_some hfind
      simpa using this
    have holdmem := List.mem_of_find?_eq_some hfind
    by_cases hc : skuConflict db.products data.sku (some id) = true
    · simp only [update, hfind, if_pos hc]
      exact ⟨hids, hskus, hbound⟩
    · simp only [update, hfind, if_neg hc]
      have hcf : skuConflict db.products data.sku (some id) = false := by
        simpa only [Bool.not_eq_true] using hc
      have hids2 := rowUpdate_ids db.products id
        { old with name := data.name, sku := data.sku,
                   description := data.description } holdid
      refine ⟨?_, ?_, ?_⟩
      · dsimp only
        rw [hids2]
        exact hids
      · dsimp only
        exact rowUpdate_skus_nodup _ _ _ hids hskus
          (skuConflict_false_sound _ _ _ hcf)
      · intro q hq
        dsimp only at hq
        obtain ⟨q0, hq0, hq0eq⟩ := List.mem_map.mp hq
        rw [← hq0eq]
        by_cases hq0id : q0.id = id
        · rw [if_pos (by simp [hq0id])]
          exact hbound old holdmem
        · rw [if_neg (by simp [hq0id])]
          exact hbound q0 hq0

theorem dbwf_patch (id : Nat) (data : PatchProductDto) (db : Db)
    (hwf : DbWf db) : DbWf (patch id data db).2 := by
  obtain ⟨hids, hskus, hbound⟩ := hwf
  rcases hfind : db.products.find? (fun p => p.id == id) with _ | old
  · simp only [patch, hfind]
    exact ⟨hids, hskus, hbound⟩
  · have holdid : old.id = id := by
      have := List.find?_some hfind
      simpa using this
    have holdmem := List.mem_of_find?_eq_some hfind
    by_cases hc : skuConflict db.products (data.sku.getD old.sku) (some id) = true
    · simp only [patch, hfind, if_pos hc]
      exact ⟨hids, hskus, hbound⟩
    · simp only [patch, hfind, if_neg hc]
      have hcf : skuConflict db.products (data.sku.getD old.sku) (some id)
          = false := by
        simpa only [Bool.not_eq_true] using hc
      have hids2 := rowUpdate_ids db.products id
        { old with name := data.name.getD old.name, sku := data.sku.getD old.sku,
                   description := data.description.getD old.description } holdid
      refine ⟨?_, ?_, ?_⟩
      · dsimp only
        rw [hids2]
        exact hids
      · dsimp only
        exact rowUpdate_skus_nodup _ _ _ hids hskus
          (skuConflict_false_sound _ _ _ hcf)
      · intro q hq
        dsimp only at hq
        obtain ⟨q0, hq0, hq0eq⟩ := List.mem_map.mp hq
        rw [← hq0eq]
        by_cases hq0id : q0.id = id
        · rw [if_pos (by simp [hq0id])]
          exact hbound old holdmem
        · rw [if_neg (by simp [hq0id])]
          exact hbound q0 hq0

theorem dbwf_delete (id : Nat) (db : Db) (hwf : DbWf db) :
    DbWf (delete id db).2 := by
  obtain ⟨hids, hskus, hbound⟩ := hwf
  rcases hfind : db.products.find? (fun p => p.id == id) with _ | old
  · simp only [delete, hfind]
    exact ⟨hids, hskus, hbound⟩
  · simp only [delete, hfind]
    have hsub : List.Sublist (db.products.filter (fun p => !(p.id == id)))
        db.products := List.filter_sublist db.products
    exact ⟨hids.sublist (hsub.map _), hskus.sublist (hsub.map _),
      fun q hq => hbound q (hsub.mem hq)⟩

theorem db_reachable_wf (db : Db) (hr : DbReachable db) : DbWf db := by
  induction hr with
  | init => exact ⟨List.nodup_nil, List.nodup_nil, by simp⟩
  | createStep data now hr2 ih => exact dbwf_create data now _ ih
  | updateStep id data hr2 ih => exact dbwf_update id data _ ih
  | patchStep id data hr2 ih => exact dbwf_patch id data _ ih
  | deleteStep id hr2 ih => exact dbwf_delete id _ ih

/-- C10: SKU uniqueness is an invariant of the product store: in every
reachable state any two distinct products have distinct SKUs, and `create`,
`update` and `patch` each fail with
`ConflictError('Product with this SKU already exists')` — leaving the
store unchanged — whenever the SKU they would write duplicates the SKU of
another existing product. -/
theorem sku_unique_invariant (db : Db) (hr : DbReachable db) :
    (db.products.map (·.sku)).Nodup ∧
      (∀ (data : CreateProductDto) (now : Nat),
        (∃ q ∈ db.products, q.sku = data.sku) →
        create data now db
          = (Except.error
              (ServiceError.ConflictError "Product with this SKU already exists"),
             db)) ∧
      (∀ (id : Nat) (data : UpdateProductDto) (old : Product),
        db.products.find? (fun p => p.id == id) = some old →
        (∃ q ∈ db.products, q.id ≠ id ∧ q.sku = data.sku) →
        update id data db
          = (Except.error
              (ServiceError.ConflictError "Product with this SKU already exists"),
             db)) ∧
      (∀ (id : Nat) (data : PatchProductDto) (old : Product) (s2 : String),
        db.products.find? (fun p => p.id == id) = some old →
        data.sku = some s2 →
        (∃ q ∈ db.products, q.id ≠ id ∧ q.sku = s2) →
        patch id data db
          = (Except.error
              (ServiceError.ConflictError "Product with this SKU already exists"),
             db)) := by
  refine ⟨(db_reachable_wf db hr).2.1, ?_, ?_, ?_⟩
  · intro data now hex
    obtain ⟨q, hq, hqsku⟩ := hex
    have hc : skuConflict db.products data.sku none = true :=
      List.any_eq_true.mpr ⟨q, hq, by simp [hqsku]⟩
    unfold create
    rw [if_pos hc]
  · intro id data old hfind hex
    obtain ⟨q, hq, hqid, hqsku⟩ := hex
    have hc : skuConflict db.products data.sku (some id) = true :=
      List.any_eq_true.mpr ⟨q, hq, by simp [hqsku, Ne.symm hqid]⟩
    simp only [update, hfind, if_pos hc]
  · intro id data old s2 hfind hsku hex
    obtain ⟨q, hq, hqid, hqsku⟩ := hex
    have hc : skuConflict db.products (data.sku.getD old.sku) (some id)
        = true := by
      rw [hsku]
      exact List.any_eq_true.mpr ⟨q, hq, by simp [hqsku, Ne.symm hqid]⟩
    simp only [patch, hfind, if_pos hc]

theorem sku_unique_invariant_witness :
    ((create ⟨"Mouse", "MOU-1", "d"⟩ 1
        (create ⟨"Laptop", "LAP-1", "d"⟩ 0 ⟨[], 0⟩).2).2.products.map
          (·.sku)).Nodup ∧
      (∀ (data : CreateProductDto) (now : Nat),
        (∃ q ∈ (create ⟨"Mouse", "MOU-1", "d"⟩ 1
            (create ⟨"Laptop", "LAP-1", "d"⟩ 0 ⟨[], 0⟩).2).2.products,
          q.sku = data.sku) →
        create data now (create ⟨"Mouse", "MOU-1", "d"⟩ 1
            (create ⟨"Laptop", "LAP-1", "d"⟩ 0 ⟨[], 0⟩).2).2
          = (Except.error
              (ServiceError.ConflictError "Product with this SKU already exists"),
             (create ⟨"Mouse", "MOU-1", "d"⟩ 1
                (create ⟨"Laptop", "LAP-1", "d"⟩ 0 ⟨[], 0⟩).2).2)) ∧
      (∀ (id : Nat) (data : UpdateProductDto) (old : Product),
        (create ⟨"Mouse", "MOU-1", "d"⟩ 1
            (create ⟨"Laptop", "LAP-1", "d"⟩ 0 ⟨[], 0⟩).2).2.products.find?
              (fun p => p.id == id) = some old →
        (∃ q ∈ (create ⟨"Mouse", "MOU-1", "d"⟩ 1
            (create ⟨"Laptop", "LAP-1", "d"⟩ 0 ⟨[], 0⟩).2).2.products,
          q.id ≠ id ∧ q.sku = data.sku) →
        update id data (create ⟨"Mouse", "MOU-1", "d"⟩ 1
            (create ⟨"Laptop", "LAP-1", "d"⟩ 0 ⟨[], 0⟩).2).2
          = (Except.error
              (ServiceError.ConflictError "Product with this SKU already exists"),
             (create ⟨"Mouse", "MOU-1", "d"⟩ 1
                (create ⟨"Laptop", "LAP-1", "d"⟩ 0 ⟨[], 0⟩).2).2)) ∧
      (∀ (id : Nat) (data : PatchProductDto) (old : Product) (s2 : String),
        (create ⟨"Mouse", "MOU-1", "d"⟩ 1
            (create ⟨"Laptop", "LAP-1", "d"⟩ 0 ⟨[], 0⟩).2).2.products.find?
              (fun p => p.id == id) = some old →
        data.sku = some s2 →
        (∃ q ∈ (create ⟨"Mouse", "MOU-1", "d"⟩ 1
            (create ⟨"Laptop", "LAP-1", "d"⟩ 0 ⟨[], 0⟩).2).2.products,
          q.id ≠ id ∧ q.sku = s2) →
        patch id data (create ⟨"Mouse", "MOU-1", "d"⟩ 1
            (create ⟨"Laptop", "LAP-1", "d"⟩ 0 ⟨[], 0⟩).2).2
          = (Except.error
              (ServiceError.ConflictError "Product with this SKU already exists"),
             (create ⟨"Mouse", "MOU-1", "d"⟩ 1
                (create ⟨"Laptop", "LAP-1", "d"⟩ 0 ⟨[], 0⟩).2).2)) :=
  sku_unique_invariant
    (create ⟨"Mouse", "MOU-1", "d"⟩ 1
      (create ⟨"Laptop", "LAP-1", "d"⟩ 0 ⟨[], 0⟩).2).2
    (DbReachable.createStep ⟨"Mouse", "MOU-1", "d"⟩ 1
      (DbReachable.createStep ⟨"Laptop", "LAP-1", "d"⟩ 0 DbReachable.init))

end Problem5

end Spec2Proof
